import Mathlib

/-!
Verification of the SADTF distributed block-storage system.

Shallow embedding of the core modules (block_manager.py, metadata_manager.py,
coordinator.py, node.py, file_operations.py).  File contents are modelled as
lists of bytes (List Nat); Python dicts keyed by int or str are modelled as
association lists in insertion order; Python exceptions are modelled by
Except (an error result leaves the caller with the pre-call state, matching
the source, which raises before mutating); the network send/ping outcomes are
oracles (functions into Bool).  The SHA-256 digest is kept abstract as a
function parameter: every property proved here holds for any digest function.
-/

namespace SADTF

/-! ## Block codec (block_manager.py) -/

/-- BlockManager.split_file_to_memory: repeatedly read block_size bytes until
a read returns nothing, collecting the chunks (paired in the source with a
per-chunk hash, which we recover separately from the chunk data). -/
def split_file_to_memory (bs : Nat) (f : List Nat) : List (List Nat) :=
  if h : f.take bs = [] then []
  else f.take bs :: split_file_to_memory bs (f.drop bs)
termination_by f.length
decreasing_by
  simp only [List.take_eq_nil_iff, not_or] at h
  have hbs : bs ≠ 0 := h.1
  have hf : f ≠ [] := h.2
  have : 0 < f.length := List.length_pos.mpr hf
  simp [List.length_drop]
  omega

/-- Number of blocks needed for a file of the given length
(block_manager.get_num_blocks_for_file / split_file_to_blocks). -/
def num_blocks_for (bs len : Nat) : Nat := (len + bs - 1) / bs

/-- BlockManager.split_file_to_blocks: the ordered sequence of block payloads
written to disk as bloque_000.bin, bloque_001.bin, ...; the j-th read of
block_size bytes returns the bytes at positions j*bs .. j*bs+bs-1. -/
def split_file_to_blocks (bs : Nat) (f : List Nat) : List (List Nat) :=
  (List.range (num_blocks_for bs f.length)).map (fun j => (f.drop (j * bs)).take bs)

/-- Inner loop of BlockManager.join_blocks_to_file over the remaining block
indices: look the block up in the directory (failing if absent), optionally
check its hash against the expected list when the index is in range, and
concatenate the payloads in order. -/
def join_blocks_from (digest : List Nat → String) (blocksDir : List (List Nat))
    (verify_hashes : Option (List String)) : List Nat → Option (List Nat)
  | [] => some []
  | j :: rest =>
    match blocksDir.get? j with
    | none => none
    | some bd =>
      let hashOk : Bool :=
        match verify_hashes with
        | some hs => if j < hs.length then hs.getD j "" == digest bd else true
        | none => true
      if hashOk then (join_blocks_from digest blocksDir verify_hashes rest).map (bd ++ ·)
      else none

/-- BlockManager.join_blocks_to_file: reconstruct a file from num_blocks block
files in index order; returns none if a block is missing or a per-block hash
check fails, otherwise the reconstructed byte sequence. -/
def join_blocks_to_file (digest : List Nat → String) (blocksDir : List (List Nat))
    (num_blocks : Nat) (verify_hashes : Option (List String)) : Option (List Nat) :=
  join_blocks_from digest blocksDir verify_hashes (List.range num_blocks)

/-- BlockManager.calculate_file_hash: stream the file in 8192-byte chunks,
feeding each chunk to the digest; incremental hashing digests the
concatenation of the chunks fed in. -/
def calculate_file_hash (digest : List Nat → String) (f : List Nat) : String :=
  digest (split_file_to_memory 8192 f).flatten

/-! ### Codec lemmas -/

theorem split_file_to_memory_nil (bs : Nat) : split_file_to_memory bs [] = [] := by
  rw [split_file_to_memory]
  simp

theorem split_file_to_memory_cons (bs : Nat) (f : List Nat) (hbs : 0 < bs) (hf : f ≠ []) :
    split_file_to_memory bs f = f.take bs :: split_file_to_memory bs (f.drop bs) := by
  rw [split_file_to_memory]
  have : ¬ (f.take bs = []) := by
    simp only [List.take_eq_nil_iff, not_or]
    exact ⟨Nat.pos_iff_ne_zero.mp hbs, hf⟩
  simp [this]

/-- Joining the in-memory split reproduces the file. -/
theorem join_split_file_to_memory (bs : Nat) (hbs : 0 < bs) (f : List Nat) :
    (split_file_to_memory bs f).flatten = f := by
  by_cases hf : f = []
  · subst hf
    simp [split_file_to_memory_nil]
  · rw [split_file_to_memory_cons bs f hbs hf, List.flatten_cons,
      join_split_file_to_memory bs hbs (f.drop bs), List.take_append_drop]
termination_by f.length
decreasing_by
  have : 0 < f.length := List.length_pos.mpr hf
  simp [List.length_drop]
  omega

theorem num_blocks_for_zero (bs : Nat) : num_blocks_for bs 0 = 0 := by
  unfold num_blocks_for
  rcases Nat.eq_zero_or_pos bs with h | h
  · simp [h]
  · exact Nat.div_eq_of_lt (by omega)

theorem num_blocks_for_step (bs len : Nat) (hbs : 0 < bs) (hlen : 0 < len) :
    num_blocks_for bs len = num_blocks_for bs (len - bs) + 1 := by
  unfold num_blocks_for
  have h1 : len + bs - 1 = (len - 1) + bs := by omega
  rw [h1, Nat.add_div_right _ hbs]
  have h2 : (len - 1) / bs = (len - bs + bs - 1) / bs := by
    by_cases hle : len ≤ bs
    · have e1 : len - bs = 0 := by omega
      rw [e1]
      rw [Nat.div_eq_of_lt (by omega), Nat.div_eq_of_lt (by omega)]
    · have : len - 1 = len - bs + bs - 1 := by omega
      rw [this]
  rw [h2]

theorem split_file_to_blocks_nil (bs : Nat) : split_file_to_blocks bs [] = [] := by
  simp [split_file_to_blocks, num_blocks_for_zero]

theorem split_file_to_blocks_cons (bs : Nat) (f : List Nat) (hbs : 0 < bs) (hf : f ≠ []) :
    split_file_to_blocks bs f = f.take bs :: split_file_to_blocks bs (f.drop bs) := by
  unfold split_file_to_blocks
  have hlen : 0 < f.length := List.length_pos.mpr hf
  rw [num_blocks_for_step bs f.length hbs hlen, List.range_succ_eq_map,
    List.map_cons, List.map_map, Nat.zero_mul, List.drop_zero, List.length_drop]
  congr 1
  apply List.map_congr_left
  intro j _
  simp only [Function.comp_def, Nat.succ_eq_add_one]
  rw [Nat.succ_mul, List.drop_drop, Nat.add_comm (j * bs) bs]

theorem split_file_to_blocks_eq_memory (bs : Nat) (hbs : 0 < bs) (f : List Nat) :
    split_file_to_blocks bs f = split_file_to_memory bs f := by
  by_cases hf : f = []
  · subst hf
    rw [split_file_to_blocks_nil, split_file_to_memory_nil]
  · rw [split_file_to_blocks_cons bs f hbs hf, split_file_to_memory_cons bs f hbs hf,
      split_file_to_blocks_eq_memory bs hbs (f.drop bs)]
termination_by f.length
decreasing_by
  have : 0 < f.length := List.length_pos.mpr hf
  simp [List.length_drop]
  omega

theorem map_getD_range (l : List (List Nat)) :
    (List.range l.length).map (fun j => l.getD j []) = l := by
  induction l with
  | nil => rfl
  | cons a t ih =>
    rw [List.length_cons, List.range_succ_eq_map, List.map_cons, List.map_map]
    simp only [Function.comp_def, Nat.succ_eq_add_one, List.getD_cons_zero,
      List.getD_cons_succ]
    rw [ih]

theorem join_blocks_from_no_verify (digest : List Nat → String) (blocks : List (List Nat)) :
    ∀ idxs : List Nat, (∀ j ∈ idxs, j < blocks.length) →
      join_blocks_from digest blocks none idxs =
        some ((idxs.map (fun j => blocks.getD j [])).flatten) := by
  intro idxs
  induction idxs with
  | nil =>
    intro _
    simp [join_blocks_from]
  | cons j rest ih =>
    intro hall
    have hj : j < blocks.length := hall j (List.mem_cons_self j rest)
    have hrest : ∀ i ∈ rest, i < blocks.length := fun i hi => hall i (List.mem_cons_of_mem j hi)
    rw [join_blocks_from]
    have hget : blocks.get? j = some (blocks.getD j []) := by
      rw [List.getD_eq_getElem?_getD, List.get?_eq_getElem?]
      rw [List.getElem?_eq_getElem hj]
      rfl
    rw [hget]
    simp only [ih hrest, Option.map_some, List.map_cons, List.flatten_cons]
    rfl

/-- Joining every block of a directory in index order yields the concatenation. -/
theorem join_blocks_to_file_all (digest : List Nat → String) (blocks : List (List Nat)) :
    join_blocks_to_file digest blocks blocks.length none = some blocks.flatten := by
  unfold join_blocks_to_file
  rw [join_blocks_from_no_verify digest blocks (List.range blocks.length)
    (fun j hj => List.mem_range.mp hj)]
  rw [map_getD_range]

/-- C2: for every file f and positive block size, splitting f into blocks and
rejoining the blocks in index order reproduces f byte-for-byte, and the
whole-file hash of the reconstruction equals the whole-file hash of f. -/
theorem C2_split_join_roundtrip (digest : List Nat → String) (bs : Nat) (hbs : 0 < bs)
    (f : List Nat) :
    ∃ g, join_blocks_to_file digest (split_file_to_blocks bs f)
          (split_file_to_blocks bs f).length none = some g
      ∧ g = f
      ∧ calculate_file_hash digest g = calculate_file_hash digest f := by
  refine ⟨f, ?_, rfl, rfl⟩
  rw [join_blocks_to_file_all]
  rw [split_file_to_blocks_eq_memory bs hbs f, join_split_file_to_memory bs hbs f]

/-- C2 witness: the round trip evaluated at a concrete file and block size. -/
theorem C2_split_join_roundtrip_witness :
    0 < 2 ∧
    ∃ g, join_blocks_to_file (fun _ => "d") (split_file_to_blocks 2 [10, 20, 30])
          (split_file_to_blocks 2 [10, 20, 30]).length none = some g
      ∧ g = [10, 20, 30]
      ∧ calculate_file_hash (fun _ => "d") g = calculate_file_hash (fun _ => "d") [10, 20, 30] :=
  ⟨by decide, C2_split_join_roundtrip (fun _ => "d") 2 (by decide) [10, 20, 30]⟩

/-! ## Metadata store (metadata_manager.py) -/

/-- Python x or y for an optional int: None and 0 are falsy. -/
def pyOrNat (a b : Option Nat) : Option Nat :=
  match a with
  | some n => if n = 0 then b else some n
  | none => b

/-- Python x or y for an optional string: None and the empty string are falsy. -/
def pyOrStr (a b : Option String) : Option String :=
  match a with
  | some s => if s = "" then b else some s
  | none => b

/-- Python x or y for an optional list: None and the empty list are falsy. -/
def pyOrList (a b : Option (List Nat)) : Option (List Nat) :=
  match a with
  | some l => if l = [] then b else some l
  | none => b

/-- BlockEntry: one row of the block table.  Optional fields are None for a
free slot. -/
structure BlockEntry where
  block_id : Nat
  estado : String
  archivo : Option String := none
  parte : Option Nat := none
  nodo_primario : Option Nat := none
  nodo_replica : Option Nat := none
  tamano_bytes : Option Nat := none
  hash : Option String := none
  fecha_creacion : Option String := none
  deriving Repr, DecidableEq

/-- BlockEntry(block_id=id, estado=libre): the reset value written by
_initialize_empty_table, free_block and delete_file; every other field keeps
its None default. -/
def freeEntry (id : Nat) : BlockEntry := { block_id := id, estado := "libre" }

/-- FileMetadata: one row of the file index.  The alias-resolved constructor
arguments of register_file can be None, so the corresponding fields are
optional. -/
structure FileMetadata where
  nombre : Option String
  tamano_total : Option Nat
  num_bloques : Nat
  bloques : Option (List Nat)
  hash_completo : Option String
  fecha_subida : String
  deriving Repr, DecidableEq

/-- The two persisted tables of MetadataManager, as association lists in dict
insertion order (block table keyed by block id, file index keyed by the
resolved file-name value, which Python allows to be None). -/
structure MetaState where
  block_table : List (Nat × BlockEntry)
  file_index : List (Option String × FileMetadata)
  deriving Repr, DecidableEq

/-- Dict lookup on an association list. -/
def lookupA {κ α : Type} [DecidableEq κ] : List (κ × α) → κ → Option α
  | [], _ => none
  | (k, v) :: rest, x => if k = x then some v else lookupA rest x

/-- Dict assignment to a key that is already present: rewrite its pair in
place (the metadata operations only ever assign existing block ids). -/
def updA {κ α : Type} [DecidableEq κ] : List (κ × α) → κ → α → List (κ × α)
  | [], _, _ => []
  | p :: rest, x, v => (if p.1 = x then (x, v) else p) :: updA rest x v

/-- The keys of an association list. -/
def keysOf {κ α : Type} (t : List (κ × α)) : List κ := t.map Prod.fst

/-- MetadataManager.get_free_blocks: the ids of currently free slots in table
order; fails when fewer than count exist, otherwise returns the first count. -/
def get_free_blocks (st : MetaState) (count : Nat) : Except String (List Nat) :=
  let free_blocks := (st.block_table.filter (fun p => p.2.estado = "libre")).map Prod.fst
  if free_blocks.length < count then Except.error "No hay suficientes bloques libres"
  else Except.ok (free_blocks.take count)

/-- MetadataManager.allocate_block, including the English/Spanish alias
resolution (Python or, so None, 0, and the empty string fall through to the
alias; block_index alone is resolved with an is-not-None test).  Fails if the
slot does not exist or is occupied; otherwise rewrites the slot as occupied
with the resolved fields and the current timestamp. -/
def allocate_block (st : MetaState) (block_id : Nat)
    (file_name : Option String) (block_index : Option Nat)
    (primary_node : Option Nat) (replica_node : Option Nat)
    (size_bytes : Option Nat) (block_hash : Option String)
    (archivo : Option String) (parte : Option Nat)
    (nodo_primario : Option Nat) (nodo_replica : Option Nat)
    (tamano_bytes : Option Nat) (hash : Option String)
    (now : String) : Except String MetaState :=
  let file_nameR := pyOrStr file_name archivo
  let block_indexR := match block_index with | some v => some v | none => parte
  let primary_nodeR := pyOrNat primary_node nodo_primario
  let replica_nodeR := pyOrNat replica_node nodo_replica
  let size_bytesR := pyOrNat size_bytes tamano_bytes
  let block_hashR := pyOrStr block_hash hash
  match lookupA st.block_table block_id with
  | none => Except.error "Bloque no existe"
  | some entry =>
    if entry.estado = "ocupado" then Except.error "Bloque ya está ocupado"
    else
      let newEntry : BlockEntry :=
        { block_id := block_id, estado := "ocupado", archivo := file_nameR,
          parte := block_indexR, nodo_primario := primary_nodeR,
          nodo_replica := replica_nodeR, tamano_bytes := size_bytesR,
          hash := block_hashR, fecha_creacion := some now }
      Except.ok { st with block_table := updA st.block_table block_id newEntry }

/-- MetadataManager.free_block: fails if the slot does not exist, otherwise
unconditionally resets it to a fresh free entry. -/
def free_block (st : MetaState) (block_id : Nat) : Except String MetaState :=
  match lookupA st.block_table block_id with
  | none => Except.error "Bloque no existe"
  | some _ =>
    Except.ok { st with block_table := updA st.block_table block_id (freeEntry block_id) }

/-- MetadataManager.register_file with the English/Spanish alias resolution
(Python or); num_bloques defaults to the length of the resolved block list
when that list is truthy, else 0.  Fails when the resolved name is already a
key of the file index. -/
def register_file (st : MetaState) (file_name : Option String) (total_size : Option Nat)
    (block_ids : Option (List Nat)) (file_hash : Option String)
    (nombre : Option String) (tamano_total : Option Nat) (num_bloques : Option Nat)
    (bloques : Option (List Nat)) (hash_completo : Option String)
    (now : String) : Except String MetaState :=
  let file_nameR := pyOrStr file_name nombre
  let total_sizeR := pyOrNat total_size tamano_total
  let block_idsR := pyOrList block_ids bloques
  let file_hashR := pyOrStr file_hash hash_completo
  let num_bloquesDflt : Nat :=
    match block_idsR with
    | some l => if l = [] then 0 else l.length
    | none => 0
  let num_bloquesR : Nat := (pyOrNat num_bloques (some num_bloquesDflt)).getD 0
  match lookupA st.file_index file_nameR with
  | some _ => Except.error "El archivo ya existe"
  | none =>
    let fm : FileMetadata :=
      { nombre := file_nameR, tamano_total := total_sizeR,
        num_bloques := num_bloquesR, bloques := block_idsR,
        hash_completo := file_hashR, fecha_subida := now }
    Except.ok { st with file_index := st.file_index ++ [(file_nameR, fm)] }

/-- The per-block loop of MetadataManager.delete_file: reset each listed id
that is present in the block table to a free entry. -/
def free_all (t : List (Nat × BlockEntry)) (bs : List Nat) : List (Nat × BlockEntry) :=
  bs.foldl (fun acc b => if (lookupA acc b).isSome then updA acc b (freeEntry b) else acc) t

/-- MetadataManager.delete_file: fails when the name is unknown; otherwise
frees every listed block id that exists in the table, removes the record and
returns the list of the record's block ids.  A record whose bloques field is
None (possible through the register_file alias bug) makes the iteration raise. -/
def delete_file (st : MetaState) (nombre : String) : Except String (MetaState × List Nat) :=
  match lookupA st.file_index (some nombre) with
  | none => Except.error "El archivo no existe"
  | some file_meta =>
    match file_meta.bloques with
    | none => Except.error "TypeError: NoneType object is not iterable"
    | some bloques =>
      Except.ok ({ block_table := free_all st.block_table bloques,
                   file_index := st.file_index.filter (fun p => p.1 ≠ some nombre) }, bloques)

/-- MetadataManager.file_exists. -/
def file_exists (st : MetaState) (nombre : String) : Bool :=
  (lookupA st.file_index (some nombre)).isSome

/-- The block/file counting fields of MetadataManager.get_statistics (the
percentage and aggregate-size fields, floating point respectively a sum over
the possibly-unset tamano_total, are outside every claim). -/
structure Statistics where
  total_blocks : Nat
  used_blocks : Nat
  free_blocks : Nat
  total_files : Nat
  deriving Repr, DecidableEq

/-- MetadataManager.get_statistics: used_blocks counts occupied entries,
free_blocks is the difference, total_files the size of the file index. -/
def get_statistics (st : MetaState) : Statistics :=
  let total_blocks := st.block_table.length
  let used_blocks := (st.block_table.filter (fun p => p.2.estado = "ocupado")).length
  { total_blocks := total_blocks, used_blocks := used_blocks,
    free_blocks := total_blocks - used_blocks, total_files := st.file_index.length }

/-! ### Association-list lemmas -/

theorem lookupA_mem {κ α : Type} [DecidableEq κ] {t : List (κ × α)} {k : κ} {v : α}
    (h : lookupA t k = some v) : (k, v) ∈ t := by
  induction t with
  | nil => simp [lookupA] at h
  | cons p rest ih =>
    obtain ⟨k0, v0⟩ := p
    rw [lookupA] at h
    by_cases hk : k0 = k
    · rw [if_pos hk] at h
      obtain rfl : v0 = v := Option.some.inj h
      subst hk
      exact List.mem_cons_self _ _
    · rw [if_neg hk] at h
      exact List.mem_cons_of_mem _ (ih h)

theorem lookupA_of_mem {κ α : Type} [DecidableEq κ] {t : List (κ × α)} {k : κ} {v : α}
    (hnd : (keysOf t).Nodup) (h : (k, v) ∈ t) : lookupA t k = some v := by
  induction t with
  | nil => simp at h
  | cons p rest ih =>
    obtain ⟨k0, v0⟩ := p
    rw [keysOf, List.map_cons, List.nodup_cons] at hnd
    rw [lookupA]
    rcases List.mem_cons.mp h with heq | hmem
    · injection heq with h1 h2
      subst h1
      subst h2
      rw [if_pos rfl]
    · have hk : ¬ (k0 = k) := by
        intro hkk
        subst hkk
        exact hnd.1 (List.mem_map.mpr ⟨(k0, v), hmem, rfl⟩)
      rw [if_neg hk]
      exact ih hnd.2 hmem

theorem lookupA_not_mem {κ α : Type} [DecidableEq κ] {t : List (κ × α)} {k : κ}
    (h : k ∉ keysOf t) : lookupA t k = none := by
  induction t with
  | nil => rfl
  | cons p rest ih =>
    rw [keysOf, List.map_cons, List.mem_cons] at h
    push_neg at h
    rw [lookupA, if_neg (fun hh => h.1 hh.symm)]
    exact ih h.2

theorem keysOf_updA {κ α : Type} [DecidableEq κ] (t : List (κ × α)) (x : κ) (v : α) :
    keysOf (updA t x v) = keysOf t := by
  induction t with
  | nil => rfl
  | cons p rest ih =>
    rw [updA]
    by_cases hp : p.1 = x
    · rw [if_pos hp]
      simp only [keysOf, List.map_cons] at ih ⊢
      rw [ih, hp]
    · rw [if_neg hp]
      simp only [keysOf, List.map_cons] at ih ⊢
      rw [ih]

theorem lookupA_updA_self {κ α : Type} [DecidableEq κ] {t : List (κ × α)} {k : κ} {v0 : α}
    (h : lookupA t k = some v0) (v : α) : lookupA (updA t k v) k = some v := by
  induction t with
  | nil => simp [lookupA] at h
  | cons p rest ih =>
    obtain ⟨k0, v1⟩ := p
    rw [lookupA] at h
    rw [updA]
    by_cases hk : k0 = k
    · rw [if_pos hk, lookupA, if_pos rfl]
    · rw [if_neg hk] at h
      rw [if_neg hk, lookupA, if_neg hk]
      exact ih h

theorem lookupA_updA_ne {κ α : Type} [DecidableEq κ] (t : List (κ × α)) {k k1 : κ} (v : α)
    (h : k1 ≠ k) : lookupA (updA t k v) k1 = lookupA t k1 := by
  induction t with
  | nil => rfl
  | cons p rest ih =>
    obtain ⟨k0, v0⟩ := p
    rw [updA, lookupA]
    by_cases hk : k0 = k
    · rw [if_pos hk, lookupA, if_neg (fun hh => h hh.symm), if_neg ?_]
      · exact ih
      · rw [hk]
        exact fun hh => h hh.symm
    · rw [if_neg hk, lookupA]
      by_cases hk01 : k0 = k1
      · rw [if_pos hk01, if_pos hk01]
      · rw [if_neg hk01, if_neg hk01]
        exact ih

theorem updA_not_mem {κ α : Type} [DecidableEq κ] {t : List (κ × α)} {k : κ}
    (h : k ∉ keysOf t) (v : α) : updA t k v = t := by
  induction t with
  | nil => rfl
  | cons p rest ih =>
    rw [keysOf, List.map_cons, List.mem_cons] at h
    push_neg at h
    rw [updA, if_neg (fun hh => h.1 hh.symm), ih h.2]

/-- The used_blocks count of get_statistics, as a standalone function. -/
def usedCount (t : List (Nat × BlockEntry)) : Nat :=
  (t.filter (fun p => p.2.estado = "ocupado")).length

theorem get_statistics_used_blocks (st : MetaState) :
    (get_statistics st).used_blocks = usedCount st.block_table := rfl

theorem usedCount_updA_free {t : List (Nat × BlockEntry)} {id : Nat} {e0 : BlockEntry}
    (hnd : (keysOf t).Nodup) (h : lookupA t id = some e0) (he : e0.estado = "ocupado") :
    usedCount (updA t id (freeEntry id)) + 1 = usedCount t := by
  induction t with
  | nil => simp [lookupA] at h
  | cons p rest ih =>
    obtain ⟨k0, v0⟩ := p
    rw [keysOf, List.map_cons, List.nodup_cons] at hnd
    rw [lookupA] at h
    rw [updA]
    by_cases hk : k0 = id
    · subst hk
      rw [if_pos rfl] at h ⊢
      obtain rfl : v0 = e0 := Option.some.inj h
      have hrest : updA rest k0 (freeEntry k0) = rest := by
        apply updA_not_mem
        intro hm
        rw [keysOf] at hm
        exact hnd.1 hm
      rw [hrest]
      simp only [usedCount, List.filter_cons]
      simp [freeEntry, he]
    · rw [if_neg hk] at h ⊢
      have hrec := ih hnd.2 h
      simp only [usedCount, List.filter_cons] at hrec ⊢
      by_cases hocc : v0.estado = "ocupado"
      · simp [hocc] at hrec ⊢
        omega
      · simp [hocc] at hrec ⊢
        omega

theorem free_all_nil (t : List (Nat × BlockEntry)) : free_all t [] = t := rfl

theorem free_all_cons (t : List (Nat × BlockEntry)) (b : Nat) (rest : List Nat) :
    free_all t (b :: rest) =
      free_all (if (lookupA t b).isSome then updA t b (freeEntry b) else t) rest := rfl

theorem free_all_lookup_not_mem (bs : List Nat) :
    ∀ (t : List (Nat × BlockEntry)) (b : Nat), b ∉ bs →
      lookupA (free_all t bs) b = lookupA t b := by
  induction bs with
  | nil =>
    intro t b _
    rfl
  | cons c rest ih =>
    intro t b hb
    rw [List.mem_cons] at hb
    push_neg at hb
    rw [free_all_cons]
    rw [ih _ b hb.2]
    by_cases hc : (lookupA t c).isSome
    · rw [if_pos hc]
      exact lookupA_updA_ne t _ hb.1
    · rw [if_neg hc]

theorem keysOf_free_all (bs : List Nat) :
    ∀ t : List (Nat × BlockEntry), keysOf (free_all t bs) = keysOf t := by
  induction bs with
  | nil =>
    intro t
    rfl
  | cons c rest ih =>
    intro t
    rw [free_all_cons, ih]
    by_cases hc : (lookupA t c).isSome
    · rw [if_pos hc, keysOf_updA]
    · rw [if_neg hc]

theorem free_all_spec (bs : List Nat) :
    ∀ t : List (Nat × BlockEntry), (keysOf t).Nodup → bs.Nodup →
      (∀ b ∈ bs, ∃ e, lookupA t b = some e ∧ e.estado = "ocupado") →
      (∀ b ∈ bs, lookupA (free_all t bs) b = some (freeEntry b))
      ∧ usedCount (free_all t bs) + bs.length = usedCount t := by
  induction bs with
  | nil =>
    intro t _ _ _
    exact ⟨by simp, by simp [free_all_nil]⟩
  | cons c rest ih =>
    intro t hnd hbsnd hocc
    obtain ⟨e0, he0, hocc0⟩ := hocc c (List.mem_cons_self _ _)
    rw [List.nodup_cons] at hbsnd
    have hsome : (lookupA t c).isSome := by rw [he0]; rfl
    rw [free_all_cons, if_pos hsome]
    have hnd2 : (keysOf (updA t c (freeEntry c))).Nodup := by rw [keysOf_updA]; exact hnd
    have hocc2 : ∀ b ∈ rest, ∃ e, lookupA (updA t c (freeEntry c)) b = some e
        ∧ e.estado = "ocupado" := by
      intro b hb
      obtain ⟨e, he, hocce⟩ := hocc b (List.mem_cons_of_mem _ hb)
      have hbc : b ≠ c := fun hh => hbsnd.1 (hh ▸ hb)
      exact ⟨e, by rw [lookupA_updA_ne t _ hbc]; exact he, hocce⟩
    obtain ⟨ihlook, ihcount⟩ := ih (updA t c (freeEntry c)) hnd2 hbsnd.2 hocc2
    constructor
    · intro b hb
      rcases List.mem_cons.mp hb with rfl | hbrest
      · rw [free_all_lookup_not_mem rest _ b hbsnd.1]
        exact lookupA_updA_self he0 _
      · exact ihlook b hbrest
    · have hdec := usedCount_updA_free hnd he0 hocc0
      rw [List.length_cons]
      omega

theorem lookupA_filter_ne {κ α : Type} [DecidableEq κ] (t : List (κ × α)) (k : κ) :
    lookupA (t.filter (fun p => p.1 ≠ k)) k = none := by
  induction t with
  | nil => rfl
  | cons p rest ih =>
    by_cases hp : p.1 = k
    · simpa [List.filter_cons, hp, lookupA] using ih
    · simpa [List.filter_cons, hp, lookupA] using ih

/-- C4: allocate_block on an occupied slot fails with an already-exists error
(raising before any mutation, so both tables are untouched), while free_block
on any slot present in the table, free or occupied, succeeds and leaves that
slot as a fresh free entry whose every other field is unset; the file index
is not touched. -/
theorem C4_allocate_occupied_free_any (st : MetaState) (id : Nat) (e : BlockEntry)
    (hlook : lookupA st.block_table id = some e)
    (fn : Option String) (bi : Option Nat) (pn rn : Option Nat) (sb : Option Nat)
    (bh : Option String) (ar : Option String) (pa : Option Nat) (np nr : Option Nat)
    (tb : Option Nat) (ha : Option String) (now : String) :
    (e.estado = "ocupado" →
      allocate_block st id fn bi pn rn sb bh ar pa np nr tb ha now
        = Except.error "Bloque ya está ocupado")
    ∧ ∃ st', free_block st id = Except.ok st'
        ∧ lookupA st'.block_table id = some (freeEntry id)
        ∧ (freeEntry id).estado = "libre"
        ∧ (freeEntry id).archivo = none ∧ (freeEntry id).parte = none
        ∧ (freeEntry id).nodo_primario = none ∧ (freeEntry id).nodo_replica = none
        ∧ (freeEntry id).tamano_bytes = none ∧ (freeEntry id).hash = none
        ∧ (freeEntry id).fecha_creacion = none
        ∧ st'.file_index = st.file_index := by
  constructor
  · intro he
    unfold allocate_block
    rw [hlook]
    simp [he]
  · refine ⟨{ st with block_table := updA st.block_table id (freeEntry id) }, ?_, ?_,
      rfl, rfl, rfl, rfl, rfl, rfl, rfl, rfl, rfl⟩
    · unfold free_block
      rw [hlook]
    · exact lookupA_updA_self hlook _

/-- An occupied block entry used by concrete witness states. -/
def occEntry (id : Nat) (fname : String) (idx : Nat) : BlockEntry :=
  { block_id := id, estado := "ocupado", archivo := some fname, parte := some idx,
    nodo_primario := some 1, nodo_replica := some 2, tamano_bytes := some 3,
    hash := some "h", fecha_creacion := some "t" }

/-- The file-index record of the concrete witness state. -/
def exFm : FileMetadata :=
  { nombre := some "f", tamano_total := some 3, num_bloques := 1,
    bloques := some [0], hash_completo := some "H", fecha_subida := "t" }

/-- A concrete metadata state: slot 0 occupied by file f, slot 1 free, and
file f registered with block list [0]. -/
def exSt : MetaState :=
  ⟨[(0, occEntry 0 "f" 0), (1, freeEntry 1)], [(some "f", exFm)]⟩

/-- C4 witness: evaluated on the concrete state exSt at slot 0. -/
theorem C4_allocate_occupied_free_any_witness :
    (lookupA exSt.block_table 0 = some (occEntry 0 "f" 0))
    ∧ (((occEntry 0 "f" 0).estado = "ocupado" →
        allocate_block exSt 0 (some "b") (some 0) (some 1) (some 2) (some 4)
          (some "k") none none none none none none "u"
          = Except.error "Bloque ya está ocupado")
      ∧ ∃ st', free_block exSt 0 = Except.ok st'
          ∧ lookupA st'.block_table 0 = some (freeEntry 0)
          ∧ (freeEntry 0).estado = "libre"
          ∧ (freeEntry 0).archivo = none ∧ (freeEntry 0).parte = none
          ∧ (freeEntry 0).nodo_primario = none ∧ (freeEntry 0).nodo_replica = none
          ∧ (freeEntry 0).tamano_bytes = none ∧ (freeEntry 0).hash = none
          ∧ (freeEntry 0).fecha_creacion = none
          ∧ st'.file_index = exSt.file_index) :=
  ⟨by decide, C4_allocate_occupied_free_any exSt 0 (occEntry 0 "f" 0) (by decide)
    (some "b") (some 0) (some 1) (some 2) (some 4) (some "k")
    none none none none none none "u"⟩

/-- C9 (code bug): registering a zero-byte file records an unset total size.
The alias resolution total_size or tamano_total treats 0 as falsy and falls
back to the None alias, and block_ids or bloques likewise collapses the empty
block list to None, so register_file(file_name, total_size=0, block_ids=[],
file_hash=h) succeeds but stores tamano_total = None and bloques = None
instead of 0 and the empty list. -/
theorem C9_register_zero_size_stores_none :
    ∃ st', register_file ⟨[], []⟩ (some "empty.txt") (some 0) (some []) (some "h")
        none none none none none "t" = Except.ok st'
      ∧ lookupA st'.file_index (some "empty.txt")
          = some { nombre := some "empty.txt", tamano_total := none, num_bloques := 0,
                   bloques := none, hash_completo := some "h", fecha_subida := "t" } :=
  ⟨_, rfl, by decide⟩

/-- C5: deleting a registered file whose recorded block ids are distinct and
occupied by that file frees every recorded id, removes the record (the name
stops existing), returns the freed ids, and decreases used_blocks by exactly
the file's block count; deleting an unknown name fails. -/
theorem C5_delete_file (st : MetaState) (nombre : String) (fm : FileMetadata) (bs : List Nat)
    (hnd : (keysOf st.block_table).Nodup)
    (hfm : lookupA st.file_index (some nombre) = some fm)
    (hbs : fm.bloques = some bs)
    (hbsnd : bs.Nodup)
    (hocc : ∀ b ∈ bs, ∃ p ∈ st.block_table, p.1 = b ∧ p.2.estado = "ocupado"
        ∧ p.2.archivo = some nombre) :
    ∃ st', delete_file st nombre = Except.ok (st', bs)
      ∧ (∀ b ∈ bs, lookupA st'.block_table b = some (freeEntry b))
      ∧ file_exists st' nombre = false
      ∧ (get_statistics st').used_blocks + bs.length = (get_statistics st).used_blocks
      ∧ (∀ nom2 : String, lookupA st.file_index (some nom2) = none →
          delete_file st nom2 = Except.error "El archivo no existe") := by
  have hocc2 : ∀ b ∈ bs, ∃ e, lookupA st.block_table b = some e ∧ e.estado = "ocupado" := by
    intro b hb
    obtain ⟨p, hpmem, hpfst, hpocc, _⟩ := hocc b hb
    obtain ⟨k, e⟩ := p
    obtain rfl : k = b := hpfst
    exact ⟨e, lookupA_of_mem hnd hpmem, hpocc⟩
  obtain ⟨hlook, hcount⟩ := free_all_spec bs st.block_table hnd hbsnd hocc2
  refine ⟨⟨free_all st.block_table bs,
    st.file_index.filter (fun p => p.1 ≠ some nombre)⟩, ?_, hlook, ?_, ?_, ?_⟩
  · simp only [delete_file, hfm, hbs]
  · rw [file_exists]
    rw [lookupA_filter_ne]
    rfl
  · rw [get_statistics_used_blocks, get_statistics_used_blocks]
    exact hcount
  · intro nom2 hnone
    unfold delete_file
    rw [hnone]

/-- C5 witness: evaluated on the concrete state exSt for file f. -/
theorem C5_delete_file_witness :
    ((keysOf exSt.block_table).Nodup)
    ∧ (∃ st', delete_file exSt "f" = Except.ok (st', [0])
      ∧ (∀ b ∈ ([0] : List Nat), lookupA st'.block_table b = some (freeEntry b))
      ∧ file_exists st' "f" = false
      ∧ (get_statistics st').used_blocks + ([0] : List Nat).length
          = (get_statistics exSt).used_blocks
      ∧ (∀ nom2 : String, lookupA exSt.file_index (some nom2) = none →
          delete_file exSt nom2 = Except.error "El archivo no existe")) :=
  ⟨by decide, C5_delete_file exSt "f" exFm [0]
    (by decide) (by decide) (by decide) (by decide) (by decide)⟩

/-! ## Replication planner and health monitor (coordinator.py) -/

/-- The round-robin assignment loop shared verbatim by
Coordinator.assign_blocks_for_file and FileOperations.upload_file: the block
at loop position i gets primary active[i mod N] and replica
active[(i+1) mod N], advanced to active[(i+2) mod N] if the two coincide
while more than one node is active. -/
def assign_round_robin_from (active : List Nat) : Nat → List Nat → List (Nat × Nat × Nat)
  | _, [] => []
  | i, block_id :: rest =>
    let primary_node := active.getD (i % active.length) 0
    let replica_node0 := active.getD ((i + 1) % active.length) 0
    let replica_node :=
      if primary_node = replica_node0 ∧ 1 < active.length then
        active.getD ((i + 2) % active.length) 0
      else replica_node0
    (block_id, primary_node, replica_node) :: assign_round_robin_from active (i + 1) rest

/-- The assignment loop started at position 0 (enumerate(free_blocks)). -/
def assign_round_robin (free_blocks active_nodes : List Nat) : List (Nat × Nat × Nat) :=
  assign_round_robin_from active_nodes 0 free_blocks

/-- Coordinator.assign_blocks_for_file: reserve free blocks (failing when too
few exist), require at least two active nodes, then assign round-robin. -/
def assign_blocks_for_file (st : MetaState) (active_nodes : List Nat) (num_blocks : Nat) :
    Except String (List (Nat × Nat × Nat)) :=
  match get_free_blocks st num_blocks with
  | Except.error e => Except.error e
  | Except.ok free_blocks =>
    if active_nodes.length < 2 then
      Except.error "Se necesitan al menos 2 nodos activos para replicación"
    else Except.ok (assign_round_robin free_blocks active_nodes)

theorem getD_eq_get (l : List Nat) (n : Nat) (h : n < l.length) (d : Nat) :
    l.getD n d = l.get ⟨n, h⟩ := by
  induction l generalizing n with
  | nil => simp at h
  | cons a t ih =>
    cases n with
    | zero => rfl
    | succ m =>
      rw [List.getD_cons_succ]
      exact ih m (by simpa using h)

theorem mod_succ_ne (i N : Nat) (hN : 2 ≤ N) : i % N ≠ (i + 1) % N := by
  have hpos : 0 < N := by omega
  have hr : i % N < N := Nat.mod_lt i hpos
  have hone : 1 % N = 1 := Nat.mod_eq_of_lt (by omega)
  have hsucc : (i + 1) % N = (i % N + 1) % N := by
    rw [Nat.add_mod, hone]
  rcases Nat.lt_or_ge (i % N + 1) N with hlt | hge
  · rw [hsucc, Nat.mod_eq_of_lt hlt]
    omega
  · have heq : i % N + 1 = N := by omega
    rw [hsucc, heq, Nat.mod_self]
    omega

theorem active_getD_ne (active : List Nat) (hN : 2 ≤ active.length) (hnd : active.Nodup)
    (i : Nat) :
    active.getD (i % active.length) 0 ≠ active.getD ((i + 1) % active.length) 0 := by
  have hpos : 0 < active.length := by omega
  have h1 : i % active.length < active.length := Nat.mod_lt i hpos
  have h2 : (i + 1) % active.length < active.length := Nat.mod_lt _ hpos
  rw [getD_eq_get _ _ h1, getD_eq_get _ _ h2]
  intro h
  have hfin := (List.Nodup.get_inj_iff hnd).mp h
  have hval : i % active.length = (i + 1) % active.length := congrArg Fin.val hfin
  exact mod_succ_ne i _ hN hval

theorem assign_round_robin_from_spec (active : List Nat) (hN : 2 ≤ active.length)
    (hnd : active.Nodup) :
    ∀ (fb : List Nat) (i j : Nat), j < fb.length →
      (assign_round_robin_from active i fb).getD j (0, 0, 0)
        = (fb.getD j 0, active.getD ((i + j) % active.length) 0,
           active.getD ((i + j + 1) % active.length) 0) := by
  intro fb
  induction fb with
  | nil =>
    intro i j hj
    simp at hj
  | cons b rest ih =>
    intro i j hj
    rw [assign_round_robin_from]
    have hne := active_getD_ne active hN hnd i
    simp only [hne, false_and, if_false]
    cases j with
    | zero =>
      simp
    | succ m =>
      rw [List.getD_cons_succ, List.getD_cons_succ]
      have hm : m < rest.length := by simpa using hj
      rw [ih (i + 1) m hm]
      have e1 : i + 1 + m = i + (m + 1) := by omega
      rw [e1]

/-- C3: over at least two distinct active node ids, the round-robin
assignment gives the block at position j primary active[j mod N] and replica
active[(j+1) mod N], which are always distinct (the advance branch never
fires); with fewer than two active nodes assign_blocks_for_file fails with
the insufficient-replicas error whenever the free-block reservation itself
succeeded. -/
theorem C3_round_robin_assignment (active : List Nat) :
    (2 ≤ active.length → active.Nodup →
      ∀ (fb : List Nat) (j : Nat), j < fb.length →
        (assign_round_robin fb active).getD j (0, 0, 0)
          = (fb.getD j 0, active.getD (j % active.length) 0,
             active.getD ((j + 1) % active.length) 0)
        ∧ active.getD (j % active.length) 0 ≠ active.getD ((j + 1) % active.length) 0)
    ∧ (active.length < 2 → ∀ (st : MetaState) (num_blocks : Nat) (fb : List Nat),
        get_free_blocks st num_blocks = Except.ok fb →
        assign_blocks_for_file st active num_blocks
          = Except.error "Se necesitan al menos 2 nodos activos para replicación") := by
  constructor
  · intro hN hnd fb j hj
    constructor
    · have := assign_round_robin_from_spec active hN hnd fb 0 j hj
      rw [assign_round_robin]
      simpa using this
    · exact active_getD_ne active hN hnd j
  · intro hlt st num_blocks fb hfb
    simp only [assign_blocks_for_file, hfb, if_pos hlt]

/-- C3 witness: the positive part at two active nodes and block position 1,
and the failure part at a single active node. -/
theorem C3_round_robin_assignment_witness :
    (((assign_round_robin [5, 6, 7] [1, 2]).getD 1 (0, 0, 0)
        = ([5, 6, 7].getD 1 0, [1, 2].getD (1 % [1, 2].length) 0,
           [1, 2].getD ((1 + 1) % [1, 2].length) 0)
      ∧ [1, 2].getD (1 % [1, 2].length) 0 ≠ [1, 2].getD ((1 + 1) % [1, 2].length) 0)
    ∧ assign_blocks_for_file ⟨[(0, freeEntry 0)], []⟩ [1] 1
        = Except.error "Se necesitan al menos 2 nodos activos para replicación") :=
  ⟨(C3_round_robin_assignment [1, 2]).1 (by decide) (by decide) [5, 6, 7] 1 (by decide),
   (C3_round_robin_assignment [1]).2 (by decide) ⟨[(0, freeEntry 0)], []⟩ 1 [0] rfl⟩

/-- The liveness fields of coordinator.NodeStatus mutated by the health loop
(the static address and capacity fields play no part in the claims; the ping
outcome is keyed by node id, standing for ping_node(node.ip, node.puerto),
both determined by the id).  Heartbeat instants are rationals standing for
the time.time() floats. -/
structure NodeStatusC where
  activo : Bool
  ultimo_heartbeat : Rat
  deriving Repr, DecidableEq

/-- Coordinator._check_nodes_health: every node other than the coordinator
that is currently active and whose time since last heartbeat exceeds
3 x timeout is pinged; ping failure marks it inactive, ping success
refreshes its heartbeat time; every other node is left as it is. -/
def check_nodes_health (selfId : Nat) (timeout now : Rat) (ping : Nat → Bool)
    (nodes : List (Nat × NodeStatusC)) : List (Nat × NodeStatusC) :=
  nodes.map (fun p =>
    if p.1 = selfId then p
    else if p.2.activo then
      if now - p.2.ultimo_heartbeat > timeout * 3 then
        if ping p.1 then (p.1, { p.2 with ultimo_heartbeat := now })
        else (p.1, { p.2 with activo := false })
      else p
    else p)

theorem lookupA_map_keyfix {κ α : Type} [DecidableEq κ] (f : κ × α → κ × α)
    (hf : ∀ p, (f p).1 = p.1) (t : List (κ × α)) (k : κ) {v : α}
    (hnd : (keysOf t).Nodup) (h : (k, v) ∈ t) :
    lookupA (t.map f) k = some (f (k, v)).2 := by
  induction t with
  | nil => simp at h
  | cons p rest ih =>
    rw [keysOf, List.map_cons, List.nodup_cons] at hnd
    rw [List.map_cons]
    rcases List.mem_cons.mp h with heq | hmem
    · subst heq
      have : lookupA (f (k, v) :: rest.map f) k
          = if (f (k, v)).1 = k then some (f (k, v)).2 else lookupA (rest.map f) k := by
        obtain ⟨k1, v1⟩ := f (k, v)
        rw [lookupA]
      rw [this, if_pos (hf (k, v))]
    · have hne : ¬ ((f p).1 = k) := by
        rw [hf p]
        intro hkk
        subst hkk
        exact hnd.1 (List.mem_map.mpr ⟨(p.1, v), hmem, rfl⟩)
      have : lookupA (f p :: rest.map f) k
          = if (f p).1 = k then some (f p).2 else lookupA (rest.map f) k := by
        obtain ⟨k1, v1⟩ := f p
        rw [lookupA]
      rw [this, if_neg hne]
      exact ih hnd.2 hmem

/-- C7: an active non-coordinator node whose silence exceeds 3 x timeout at
the start of a health-check cycle is pinged: on ping failure it is inactive
at the end of the cycle, on ping success its heartbeat time is refreshed to
now and it stays active; an active node still within the window is left
unchanged by the cycle. -/
theorem C7_health_check_transition (selfId : Nat) (timeout now : Rat) (ping : Nat → Bool)
    (nodes : List (Nat × NodeStatusC)) (nid : Nat) (ns : NodeStatusC)
    (hnd : (keysOf nodes).Nodup) (hmem : (nid, ns) ∈ nodes)
    (hself : nid ≠ selfId) (hact : ns.activo = true) :
    (now - ns.ultimo_heartbeat > timeout * 3 →
      (ping nid = false →
        lookupA (check_nodes_health selfId timeout now ping nodes) nid
          = some { ns with activo := false })
      ∧ (ping nid = true →
        lookupA (check_nodes_health selfId timeout now ping nodes) nid
          = some { ns with ultimo_heartbeat := now }
        ∧ ({ ns with ultimo_heartbeat := now } : NodeStatusC).activo = true))
    ∧ (¬ (now - ns.ultimo_heartbeat > timeout * 3) →
      lookupA (check_nodes_health selfId timeout now ping nodes) nid = some ns) := by
  have hf : ∀ p : Nat × NodeStatusC,
      ((fun p : Nat × NodeStatusC =>
        if p.1 = selfId then p
        else if p.2.activo then
          if now - p.2.ultimo_heartbeat > timeout * 3 then
            if ping p.1 then (p.1, { p.2 with ultimo_heartbeat := now })
            else (p.1, { p.2 with activo := false })
          else p
        else p) p).1 = p.1 := by
    intro p
    dsimp only
    by_cases h1 : p.1 = selfId
    · rw [if_pos h1]
    · rw [if_neg h1]
      by_cases h2 : p.2.activo
      · rw [if_pos h2]
        by_cases h3 : now - p.2.ultimo_heartbeat > timeout * 3
        · rw [if_pos h3]
          by_cases h4 : ping p.1
          · rw [if_pos h4]
          · rw [if_neg h4]
        · rw [if_neg h3]
      · rw [if_neg h2]
  have hkey := lookupA_map_keyfix _ hf nodes nid hnd hmem
  rw [check_nodes_health]
  constructor
  · intro h3
    constructor
    · intro hping
      rw [hkey]
      simp [hself, hact, h3, hping]
    · intro hping
      refine ⟨?_, hact⟩
      rw [hkey]
      simp [hself, hact, h3, hping]
  · intro h3
    rw [hkey]
    simp [hself, hact, h3]

/-- Concrete node table for the health-check witness: nodes 2 and 3 active,
node 2 last heard from at time 0, node 3 at time 95. -/
def exNodes : List (Nat × NodeStatusC) := [(2, ⟨true, 0⟩), (3, ⟨true, 95⟩)]

/-- C7 witness: at time 100 with timeout 10, node 2 (silent for 100 > 30)
fails its confirmation ping and is marked inactive by the cycle. -/
theorem C7_health_check_transition_witness :
    (keysOf exNodes).Nodup
    ∧ lookupA (check_nodes_health 1 10 100 (fun n => decide (n = 3)) exNodes) 2
        = some { activo := false, ultimo_heartbeat := 0 } :=
  ⟨by decide,
   ((C7_health_check_transition 1 10 100 (fun n => decide (n = 3)) exNodes 2 ⟨true, 0⟩
      (by decide) (by decide) (by decide) rfl).1 (by norm_num)).1 rfl⟩

/-! ## Local block store (node.py) -/

/-- BlockManager.write_block on the node storage directory: an existing file
of the same name is truncated and replaced, otherwise a new file appears. -/
def storeSet (s : List (Nat × List Nat)) (id : Nat) (d : List Nat) : List (Nat × List Nat) :=
  if (lookupA s id).isSome then updA s id d else s ++ [(id, d)]

/-- Node-side state: configured capacity in MB, the block files on disk
(keyed by block id, one file per id), and the two usage counters (Python
ints, which can in principle go negative, hence Int). -/
structure NodeState where
  capacidad_mb : Nat
  storage : List (Nat × List Nat)
  bloques_almacenados : Int
  bytes_usados : Int
  deriving Repr, DecidableEq

/-- Node._has_space_for_block: used + size must not exceed the capacity in
bytes. -/
def has_space_for_block (st : NodeState) (block_size : Nat) : Bool :=
  decide (st.bytes_usados + block_size ≤ (st.capacidad_mb : Int) * 1024 * 1024)

/-- Node.store_block: fail (storing nothing, counters untouched) when the
block would exceed capacity, else write the block file and increase
bytes_usados by the data length and bloques_almacenados by one (also on an
overwrite of an already stored id). -/
def store_block (st : NodeState) (block_id : Nat) (block_data : List Nat) :
    Bool × NodeState :=
  if has_space_for_block st block_data.length then
    let st2 : NodeState :=
      { st with
        storage := storeSet st.storage block_id block_data,
        bloques_almacenados := st.bloques_almacenados + 1,
        bytes_usados := st.bytes_usados + block_data.length }
    (true, st2)
  else (false, st)

/-- Node.delete_block: report failure when the block file is absent, else
remove it and decrease the counters by one block and by the file size found
on disk. -/
def delete_block (st : NodeState) (block_id : Nat) : Bool × NodeState :=
  match lookupA st.storage block_id with
  | none => (false, st)
  | some d =>
    let st2 : NodeState :=
      { st with
        storage := st.storage.filter (fun p => p.1 ≠ block_id),
        bloques_almacenados := st.bloques_almacenados - 1,
        bytes_usados := st.bytes_usados - d.length }
    (true, st2)

/-- Node._calculate_space_usage, block-count half: the number of block files
in the storage directory. -/
def disk_blocks (st : NodeState) : Int := (st.storage.length : Int)

/-- Node._calculate_space_usage, byte half: the total size of the block
files in the storage directory. -/
def disk_bytes (st : NodeState) : Int :=
  (st.storage.map (fun p => (p.2.length : Int))).sum

theorem lookupA_append {κ α : Type} [DecidableEq κ] (s l : List (κ × α)) (k : κ)
    (h : lookupA s k = none) : lookupA (s ++ l) k = lookupA l k := by
  induction s with
  | nil => rfl
  | cons p rest ih =>
    obtain ⟨k0, v0⟩ := p
    rw [lookupA] at h
    rw [List.cons_append, lookupA]
    by_cases hk : k0 = k
    · rw [if_pos hk] at h
      exact absurd h (by simp)
    · rw [if_neg hk] at h ⊢
      exact ih h

theorem lookupA_storeSet_self (s : List (Nat × List Nat)) (id : Nat) (d : List Nat) :
    lookupA (storeSet s id d) id = some d := by
  rw [storeSet]
  by_cases h : (lookupA s id).isSome
  · rw [if_pos h]
    obtain ⟨v, hv⟩ := Option.isSome_iff_exists.mp h
    exact lookupA_updA_self hv d
  · rw [if_neg h]
    rw [lookupA_append s _ id (Option.not_isSome_iff_eq_none.mp h)]
    rw [lookupA, if_pos rfl]

/-- C6: store_block fails, stores nothing and leaves counters and storage
unchanged whenever used + len(data) exceeds the capacity in bytes; otherwise
it persists the block under its id and increases the used-bytes counter by
len(data) and the stored-block counter by one. -/
theorem C6_store_block_capacity (st : NodeState) (id : Nat) (data : List Nat) :
    ((st.capacidad_mb : Int) * 1024 * 1024 < st.bytes_usados + data.length →
      store_block st id data = (false, st))
    ∧ (st.bytes_usados + data.length ≤ (st.capacidad_mb : Int) * 1024 * 1024 →
      ∃ st', store_block st id data = (true, st')
        ∧ st'.bytes_usados = st.bytes_usados + data.length
        ∧ st'.bloques_almacenados = st.bloques_almacenados + 1
        ∧ lookupA st'.storage id = some data) := by
  constructor
  · intro hover
    have hsp : has_space_for_block st data.length = false := by
      rw [has_space_for_block]
      simp only [decide_eq_false_iff_not, not_le]
      exact hover
    rw [store_block, hsp]
    rfl
  · intro hfits
    have hsp : has_space_for_block st data.length = true := by
      rw [has_space_for_block]
      simpa using hfits
    refine ⟨{ st with
      storage := storeSet st.storage id data,
      bloques_almacenados := st.bloques_almacenados + 1,
      bytes_usados := st.bytes_usados + data.length }, ?_, rfl, rfl, ?_⟩
    · rw [store_block, hsp]
      rfl
    · exact lookupA_storeSet_self st.storage id data

/-- C6 witness: a full node (capacity 0) rejects a 1-byte block untouched,
and an empty 1 MB node accepts it with both counters advanced. -/
theorem C6_store_block_capacity_witness :
    ((0 : Nat) * 1024 * 1024 < (0 : Int) + ([5] : List Nat).length ∧
      store_block ⟨0, [], 0, 0⟩ 9 [5] = (false, ⟨0, [], 0, 0⟩))
    ∧ ((0 : Int) + ([5] : List Nat).length ≤ ((1 : Nat) : Int) * 1024 * 1024 ∧
      ∃ st', store_block ⟨1, [], 0, 0⟩ 9 [5] = (true, st')
        ∧ st'.bytes_usados = (0 : Int) + ([5] : List Nat).length
        ∧ st'.bloques_almacenados = (0 : Int) + 1
        ∧ lookupA st'.storage 9 = some [5]) :=
  ⟨⟨by decide, (C6_store_block_capacity ⟨0, [], 0, 0⟩ 9 [5]).1 (by decide)⟩,
   ⟨by decide, (C6_store_block_capacity ⟨1, [], 0, 0⟩ 9 [5]).2 (by decide)⟩⟩

/-- One node-local request: a store_block or delete_block call. -/
inductive NodeOp where
  | store (id : Nat) (data : List Nat)
  | delete (id : Nat)
  deriving Repr, DecidableEq

/-- A sequence of store_block / delete_block requests applied in order (a
failed call leaves the state unchanged, as in the source). -/
def runOps (st : NodeState) : List NodeOp → NodeState
  | [] => st
  | NodeOp.store id d :: rest => runOps (store_block st id d).2 rest
  | NodeOp.delete id :: rest => runOps (delete_block st id).2 rest

/-- Every successful store of the sequence targets a block id with no file
currently on disk (no overwrite happens). -/
def freshStores (st : NodeState) : List NodeOp → Bool
  | [] => true
  | NodeOp.store id d :: rest =>
    (!(store_block st id d).1 || !(lookupA st.storage id).isSome)
      && freshStores (store_block st id d).2 rest
  | NodeOp.delete id :: rest => freshStores (delete_block st id).2 rest

/-- The node counters agree with the storage directory: used bytes equal the
total size of the block files present, the stored-block counter equals their
number, and there is one file per block id. -/
def countersMatchDisk (st : NodeState) : Prop :=
  (keysOf st.storage).Nodup
  ∧ st.bytes_usados = disk_bytes st
  ∧ st.bloques_almacenados = disk_blocks st

theorem lookupA_none_not_mem {κ α : Type} [DecidableEq κ] {t : List (κ × α)} {k : κ}
    (h : lookupA t k = none) : k ∉ keysOf t := by
  induction t with
  | nil => simp [keysOf]
  | cons p rest ih =>
    obtain ⟨k0, v0⟩ := p
    rw [lookupA] at h
    by_cases hk : k0 = k
    · rw [if_pos hk] at h
      exact Option.noConfusion h
    · rw [if_neg hk] at h
      rw [keysOf, List.map_cons, List.mem_cons]
      push_neg
      exact ⟨fun hh => hk hh.symm, ih h⟩

theorem filter_ne_delete {t : List (Nat × List Nat)} {k : Nat} {d : List Nat}
    (hnd : (keysOf t).Nodup) (h : lookupA t k = some d) :
    (t.filter (fun p => p.1 ≠ k)).length + 1 = t.length
    ∧ ((t.filter (fun p => p.1 ≠ k)).map (fun p => (p.2.length : Int))).sum + (d.length : Int)
        = (t.map (fun p => (p.2.length : Int))).sum := by
  induction t with
  | nil => simp [lookupA] at h
  | cons p rest ih =>
    obtain ⟨k0, v0⟩ := p
    rw [keysOf, List.map_cons, List.nodup_cons] at hnd
    rw [lookupA] at h
    by_cases hk : k0 = k
    · subst hk
      rw [if_pos rfl] at h
      obtain rfl : v0 = d := Option.some.inj h
      have hkeep : rest.filter (fun p : Nat × List Nat => p.1 ≠ k0) = rest := by
        apply List.filter_eq_self.mpr
        intro p hp
        simp only [ne_eq, decide_not, Bool.not_eq_eq_eq_not, Bool.not_true, decide_eq_false_iff_not]
        intro heq
        exact hnd.1 (List.mem_map.mpr ⟨p, hp, heq⟩)
      have hstep : ((k0, v0) :: rest).filter (fun p : Nat × List Nat => p.1 ≠ k0)
          = rest.filter (fun p : Nat × List Nat => p.1 ≠ k0) := by
        simp [List.filter_cons]
      rw [hstep, hkeep]
      constructor
      · rw [List.length_cons]
      · rw [List.map_cons, List.sum_cons]
        dsimp only
        omega
    · rw [if_neg hk] at h
      obtain ⟨ih1, ih2⟩ := ih hnd.2 h
      have hstep : ((k0, v0) :: rest).filter (fun p : Nat × List Nat => p.1 ≠ k)
          = (k0, v0) :: rest.filter (fun p : Nat × List Nat => p.1 ≠ k) := by
        simp [List.filter_cons, hk]
      rw [hstep]
      constructor
      · rw [List.length_cons, List.length_cons]
        omega
      · rw [List.map_cons, List.sum_cons, List.map_cons, List.sum_cons]
        dsimp only
        omega

theorem countersMatchDisk_store {st : NodeState} (hinv : countersMatchDisk st) (id : Nat)
    (d : List Nat)
    (hfresh : (store_block st id d).1 = true → lookupA st.storage id = none) :
    countersMatchDisk (store_block st id d).2 := by
  by_cases hsp : has_space_for_block st d.length = true
  · have h1 : (store_block st id d).1 = true := by
      rw [store_block, if_pos hsp]
    have hnone := hfresh h1
    have hset : storeSet st.storage id d = st.storage ++ [(id, d)] := by
      rw [storeSet, hnone]
      rfl
    have h2 : (store_block st id d).2 = { st with
        storage := st.storage ++ [(id, d)],
        bloques_almacenados := st.bloques_almacenados + 1,
        bytes_usados := st.bytes_usados + d.length } := by
      rw [store_block, if_pos hsp]
      rw [hset]
    rw [h2]
    obtain ⟨hk, hb, hc⟩ := hinv
    refine ⟨?_, ?_, ?_⟩
    · rw [keysOf, List.map_append]
      rw [List.nodup_append]
      refine ⟨hk, by simp, ?_⟩
      intro a ha
      simp only [List.map_cons, List.map_nil, List.mem_cons, List.not_mem_nil, or_false]
      intro heq
      subst heq
      exact lookupA_none_not_mem hnone ha
    · rw [disk_bytes] at hb ⊢
      dsimp only
      rw [List.map_append, List.sum_append]
      simp only [List.map_cons, List.map_nil, List.sum_cons, List.sum_nil]
      omega
    · rw [disk_blocks] at hc ⊢
      dsimp only
      rw [List.length_append]
      simp only [List.length_cons, List.length_nil]
      push_cast
      omega
  · have h2 : (store_block st id d).2 = st := by
      rw [store_block, if_neg hsp]
    rw [h2]
    exact hinv

theorem countersMatchDisk_delete {st : NodeState} (hinv : countersMatchDisk st) (id : Nat) :
    countersMatchDisk (delete_block st id).2 := by
  obtain ⟨hk, hb, hc⟩ := hinv
  cases hdel : lookupA st.storage id with
  | none =>
    have h2 : (delete_block st id).2 = st := by
      rw [delete_block, hdel]
    rw [h2]
    exact ⟨hk, hb, hc⟩
  | some d =>
    have h2 : (delete_block st id).2 = { st with
        storage := st.storage.filter (fun p => p.1 ≠ id),
        bloques_almacenados := st.bloques_almacenados - 1,
        bytes_usados := st.bytes_usados - d.length } := by
      rw [delete_block, hdel]
    obtain ⟨hlen, hsum⟩ := filter_ne_delete hk hdel
    rw [h2]
    refine ⟨?_, ?_, ?_⟩
    · have hsub : (st.storage.filter (fun p => p.1 ≠ id)).Sublist st.storage :=
        List.filter_sublist _
      exact ((hsub.map Prod.fst).nodup) hk
    · rw [disk_bytes] at hb ⊢
      dsimp only
      omega
    · rw [disk_blocks] at hc ⊢
      dsimp only
      have : ((st.storage.filter (fun p => p.1 ≠ id)).length : Int) + 1
          = (st.storage.length : Int) := by
        push_cast [← hlen]
        omega
      omega

instance countersMatchDisk_decidable (st : NodeState) : Decidable (countersMatchDisk st) := by
  unfold countersMatchDisk
  infer_instance

/-- C10 counterexample: from a freshly started empty node (counters
recomputed from disk), two successful store_block calls for the same block
id leave the stored-block counter at 2 and the used-bytes counter at 6 while
the storage directory holds one 3-byte file, so the counters no longer match
the disk contents after a successful overwrite. -/
theorem C10_overwrite_counterexample :
    (store_block ⟨1, [], 0, 0⟩ 0 [7, 7, 7]).1 = true
    ∧ (store_block (store_block ⟨1, [], 0, 0⟩ 0 [7, 7, 7]).2 0 [7, 7, 7]).1 = true
    ∧ ¬ countersMatchDisk
        (store_block (store_block ⟨1, [], 0, 0⟩ 0 [7, 7, 7]).2 0 [7, 7, 7]).2
    ∧ (store_block (store_block ⟨1, [], 0, 0⟩ 0 [7, 7, 7]).2 0
        [7, 7, 7]).2.bloques_almacenados = 2
    ∧ disk_blocks (store_block (store_block ⟨1, [], 0, 0⟩ 0 [7, 7, 7]).2 0 [7, 7, 7]).2 = 1
    ∧ (store_block (store_block ⟨1, [], 0, 0⟩ 0 [7, 7, 7]).2 0 [7, 7, 7]).2.bytes_usados = 6
    ∧ disk_bytes (store_block (store_block ⟨1, [], 0, 0⟩ 0 [7, 7, 7]).2 0 [7, 7, 7]).2 = 3 := by
  decide

/-- C10 (amended): after every sequence of store_block and delete_block
calls in which no successful store targets an id already on disk, the
used-bytes counter equals the total size of the block files in the storage
directory and the stored-block counter equals their number. -/
theorem C10_counters_match_disk (ops : List NodeOp) :
    ∀ st : NodeState, countersMatchDisk st → freshStores st ops = true →
      countersMatchDisk (runOps st ops) := by
  induction ops with
  | nil =>
    intro st h _
    exact h
  | cons op rest ih =>
    intro st hinv hfresh
    cases op with
    | store id d =>
      rw [freshStores, Bool.and_eq_true] at hfresh
      rw [runOps]
      apply ih _ ?_ hfresh.2
      apply countersMatchDisk_store hinv
      intro hsucc
      by_cases hmem : (lookupA st.storage id).isSome
      · exfalso
        have hfalse : (!(store_block st id d).1 || !(lookupA st.storage id).isSome) = false := by
          rw [hsucc, hmem]
          rfl
        have hcontr := hfresh.1
        rw [hfalse] at hcontr
        exact Bool.noConfusion hcontr
      · exact Option.not_isSome_iff_eq_none.mp hmem
    | delete id =>
      rw [freshStores] at hfresh
      rw [runOps]
      exact ih _ (countersMatchDisk_delete hinv id) hfresh

/-- C10 witness: a store, a delete and a fresh re-store on an empty node,
after which the counters match the disk contents. -/
theorem C10_counters_match_disk_witness :
    countersMatchDisk ⟨1, [], 0, 0⟩
    ∧ freshStores ⟨1, [], 0, 0⟩
        [NodeOp.store 0 [1, 2], NodeOp.delete 0, NodeOp.store 0 [3]] = true
    ∧ countersMatchDisk (runOps ⟨1, [], 0, 0⟩
        [NodeOp.store 0 [1, 2], NodeOp.delete 0, NodeOp.store 0 [3]]) :=
  ⟨by decide, by decide,
   C10_counters_match_disk [NodeOp.store 0 [1, 2], NodeOp.delete 0, NodeOp.store 0 [3]]
     ⟨1, [], 0, 0⟩ (by decide) (by decide)⟩

/-! ## Upload orchestration (file_operations.py) -/

/-- FileOperations._rollback_upload: for every already committed assignment,
the block is deleted from both its nodes (best effort, no metadata effect)
and its metadata slot freed, with any free_block exception swallowed
(try/except pass). -/
def rollback_step (s : MetaState) (a : Nat × Nat × Nat) : MetaState :=
  match free_block s a.1 with
  | Except.ok s2 => s2
  | Except.error _ => s

def rollback_upload (st : MetaState) (assignments : List (Nat × Nat × Nat)) : MetaState :=
  assignments.foldl rollback_step st

/-- The per-block send loop of FileOperations.upload_file over the remaining
assignments: i is the enumerate counter and done the committed prefix
(assignments[:i]); okP i and okR i are the outcomes of the primary and
replica sends of iteration i (network oracles).  Both sends of an iteration
happen, then on joint success the block's metadata entry is allocated and
the loop continues; on a send failure the committed prefix is rolled back
and failure is returned.  After the last block the file record is
registered.  A metadata exception escapes to the surrounding try/except of
upload_file, which reports failure leaving the state as mutated so far. -/
def uploadFrom (file_name : String) (file_size : Nat)
    (blocks : List (List Nat × String)) (file_hash : String) (free_blocks : List Nat)
    (okP okR : Nat → Bool) (now : String) :
    Nat → List (Nat × Nat × Nat) → MetaState → List (Nat × Nat × Nat) → Bool × MetaState
  | _, _, st, [] =>
    match register_file st (some file_name) (some file_size) (some free_blocks)
        (some file_hash) none none none none none now with
    | Except.ok st2 => (true, st2)
    | Except.error _ => (false, st)
  | i, done, st, (block_id, primary_node, replica_node) :: rest =>
    if okP i && okR i then
      match allocate_block st block_id (some file_name) (some i) (some primary_node)
          (some replica_node) (some (blocks.getD i ([], "")).1.length)
          (some (blocks.getD i ([], "")).2) none none none none none none now with
      | Except.ok st2 =>
        uploadFrom file_name file_size blocks file_hash free_blocks okP okR now
          (i + 1) (done ++ [(block_id, primary_node, replica_node)]) st2 rest
      | Except.error _ => (false, st)
    else (false, rollback_upload st done)

/-- FileOperations.upload_file: validate that the name is new and at least
two nodes are active, reserve free blocks, assign them round robin, then run
the send loop; the boolean is the success flag of the returned
FileOperationResult. -/
def upload_file (st : MetaState) (file_name : String) (file_size : Nat)
    (blocks : List (List Nat × String)) (file_hash : String) (active_nodes : List Nat)
    (okP okR : Nat → Bool) (now : String) : Bool × MetaState :=
  if file_exists st file_name then (false, st)
  else if active_nodes.length < 2 then (false, st)
  else
    match get_free_blocks st blocks.length with
    | Except.error _ => (false, st)
    | Except.ok free_blocks =>
      uploadFrom file_name file_size blocks file_hash free_blocks okP okR now
        0 [] st (assign_round_robin free_blocks active_nodes)

/-- The externally visible steps of one upload_file send loop, in program
order: the two sends of iteration i, the metadata allocation of a block id,
the rollback of the committed prefix, and the final file registration. -/
inductive UpEvent where
  | sendP (i : Nat)
  | sendR (i : Nat)
  | allocE (block_id : Nat)
  | rollbackE
  | registerE
  deriving Repr, DecidableEq

/-- The event trace of the send loop of upload_file: iteration i performs
both sends; when both succeed the block's metadata entry is allocated at
once and the loop continues, otherwise the committed prefix is rolled back
and the loop stops; after the last block the file record is registered. -/
def uploadEvents (okP okR : Nat → Bool) : Nat → List (Nat × Nat × Nat) → List UpEvent
  | _, [] => [UpEvent.registerE]
  | i, (block_id, _, _) :: rest =>
    if okP i && okR i then
      UpEvent.sendP i :: UpEvent.sendR i :: UpEvent.allocE block_id ::
        uploadEvents okP okR (i + 1) rest
    else [UpEvent.sendP i, UpEvent.sendR i, UpEvent.rollbackE]

/-- C8 counterexample: in a fully successful two-block upload the metadata
allocation of block 0 happens strictly before the sends of block 1, so
allocations are not deferred until every block of the file has been sent. -/
theorem C8_alloc_precedes_later_send :
    uploadEvents (fun _ => true) (fun _ => true) 0 [(0, 1, 2), (1, 2, 1)]
      = [UpEvent.sendP 0, UpEvent.sendR 0, UpEvent.allocE 0,
         UpEvent.sendP 1, UpEvent.sendR 1, UpEvent.allocE 1, UpEvent.registerE]
    ∧ (uploadEvents (fun _ => true) (fun _ => true) 0 [(0, 1, 2), (1, 2, 1)]).indexOf
        (UpEvent.allocE 0)
      < (uploadEvents (fun _ => true) (fun _ => true) 0 [(0, 1, 2), (1, 2, 1)]).indexOf
        (UpEvent.sendP 1) := by
  decide

/-- C8 (amended): in a fully successful upload each block's metadata entry
is allocated immediately after that one block has been sent to both of its
nodes (interleaved with the sends, not after all of them), and the file
record is registered as the very last step, after every send and every
allocation — so the file becomes visible to file_exists only once all its
blocks are stored on both nodes. -/
theorem C8_alloc_interleaved_register_last (okP okR : Nat → Bool)
    (hok : ∀ i, okP i = true ∧ okR i = true) :
    ∀ (assignments : List (Nat × Nat × Nat)) (i : Nat),
      uploadEvents okP okR i assignments
        = (((List.range' i assignments.length).zip assignments).map
            (fun p => [UpEvent.sendP p.1, UpEvent.sendR p.1, UpEvent.allocE p.2.1])).flatten
          ++ [UpEvent.registerE] := by
  intro assignments
  induction assignments with
  | nil =>
    intro i
    rfl
  | cons a rest ih =>
    obtain ⟨block_id, pn, rn⟩ := a
    intro i
    rw [uploadEvents]
    have hcond : (okP i && okR i) = true := by
      rw [(hok i).1, (hok i).2]
      rfl
    rw [if_pos hcond, ih (i + 1)]
    rw [List.length_cons, List.range'_succ, List.zip_cons_cons, List.map_cons,
      List.flatten_cons]
    rfl

/-- C8 witness for the amended ordering: the trace of a successful one-block
upload evaluated concretely. -/
theorem C8_alloc_interleaved_register_last_witness :
    uploadEvents (fun _ => true) (fun _ => true) 0 [(4, 1, 2)]
      = (((List.range' 0 ([(4, 1, 2)] : List (Nat × Nat × Nat)).length).zip
          [(4, 1, 2)]).map
            (fun p => [UpEvent.sendP p.1, UpEvent.sendR p.1, UpEvent.allocE p.2.1])).flatten
        ++ [UpEvent.registerE] :=
  C8_alloc_interleaved_register_last (fun _ => true) (fun _ => true)
    (fun _ => ⟨rfl, rfl⟩) [(4, 1, 2)] 0

theorem get_free_blocks_ok {st : MetaState} {count : Nat} {fb : List Nat}
    (hnd : (keysOf st.block_table).Nodup)
    (h : get_free_blocks st count = Except.ok fb) :
    fb.Nodup ∧ fb.length = count
    ∧ ∀ b ∈ fb, ∃ e, lookupA st.block_table b = some e ∧ e.estado = "libre" := by
  unfold get_free_blocks at h
  by_cases hlt :
      ((st.block_table.filter (fun p => p.2.estado = "libre")).map Prod.fst).length < count
  · rw [if_pos hlt] at h
    exact Except.noConfusion h
  · rw [if_neg hlt] at h
    obtain rfl : ((st.block_table.filter
        (fun p => p.2.estado = "libre")).map Prod.fst).take count = fb := Except.ok.inj h
    have hsubkeys : ((st.block_table.filter (fun p => p.2.estado = "libre")).map
        Prod.fst).Sublist (keysOf st.block_table) :=
      (List.filter_sublist st.block_table).map Prod.fst
    refine ⟨?_, ?_, ?_⟩
    · exact ((List.take_sublist _ _).trans hsubkeys).nodup hnd
    · rw [List.length_take]
      omega
    · intro b hb
      have hb2 := List.mem_of_mem_take hb
      obtain ⟨p, hpf, hpb⟩ := List.mem_map.mp hb2
      obtain ⟨hpt, hpred⟩ := List.mem_filter.mp hpf
      obtain ⟨k, e⟩ := p
      obtain rfl : k = b := hpb
      refine ⟨e, lookupA_of_mem hnd hpt, ?_⟩
      simpa using hpred

theorem assign_round_robin_from_map_fst (active : List Nat) :
    ∀ (fb : List Nat) (i : Nat),
      (assign_round_robin_from active i fb).map (fun a => a.1) = fb := by
  intro fb
  induction fb with
  | nil =>
    intro i
    rfl
  | cons b rest ih =>
    intro i
    simp only [assign_round_robin_from]
    rw [List.map_cons, ih (i + 1)]

theorem assign_round_robin_map_fst (fb active : List Nat) :
    (assign_round_robin fb active).map (fun a => a.1) = fb :=
  assign_round_robin_from_map_fst active fb 0

theorem assign_round_robin_length (fb active : List Nat) :
    (assign_round_robin fb active).length = fb.length := by
  have := congrArg List.length (assign_round_robin_map_fst fb active)
  simpa using this

theorem rollback_step_ok {s s2 : MetaState} {a : Nat × Nat × Nat}
    (h : free_block s a.1 = Except.ok s2) : rollback_step s a = s2 := by
  rw [rollback_step, h]

theorem rollback_upload_spec (assignments : List (Nat × Nat × Nat)) :
    ∀ st : MetaState,
      (∀ a ∈ assignments, (lookupA st.block_table a.1).isSome = true) →
      ((∀ b : Nat, b ∉ assignments.map (fun a => a.1) →
          lookupA (rollback_upload st assignments).block_table b
            = lookupA st.block_table b)
        ∧ (∀ a ∈ assignments,
          lookupA (rollback_upload st assignments).block_table a.1
            = some (freeEntry a.1))
        ∧ (rollback_upload st assignments).file_index = st.file_index
        ∧ keysOf (rollback_upload st assignments).block_table
            = keysOf st.block_table) := by
  induction assignments with
  | nil =>
    intro st _
    exact ⟨fun b _ => rfl, by simp, rfl, rfl⟩
  | cons a rest ih =>
    intro st hpres
    obtain ⟨e0, he0⟩ := Option.isSome_iff_exists.mp (hpres a (List.mem_cons_self _ _))
    have hfb : free_block st a.1 = Except.ok
        { st with block_table := updA st.block_table a.1 (freeEntry a.1) } := by
      rw [free_block, he0]
    have hstep : rollback_upload st (a :: rest)
        = rollback_upload
            { st with block_table := updA st.block_table a.1 (freeEntry a.1) } rest := by
      rw [rollback_upload, rollback_upload, List.foldl_cons, rollback_step_ok hfb]
    have hpres2 : ∀ a2 ∈ rest,
        (lookupA (updA st.block_table a.1 (freeEntry a.1)) a2.1).isSome = true := by
      intro a2 ha2
      by_cases heq : a2.1 = a.1
      · rw [heq, lookupA_updA_self he0]
        rfl
      · rw [lookupA_updA_ne _ _ heq]
        exact hpres a2 (List.mem_cons_of_mem _ ha2)
    obtain ⟨ih1, ih2, ih3, ih4⟩ :=
      ih { st with block_table := updA st.block_table a.1 (freeEntry a.1) } hpres2
    rw [hstep]
    refine ⟨?_, ?_, ih3, ih4.trans (keysOf_updA _ _ _)⟩
    · intro b hb
      rw [List.map_cons, List.mem_cons] at hb
      push_neg at hb
      rw [ih1 b hb.2]
      exact lookupA_updA_ne _ _ hb.1
    · intro a2 ha2
      rcases List.mem_cons.mp ha2 with rfl | ha2rest
      · by_cases hmem : a2.1 ∈ rest.map (fun x => x.1)
        · obtain ⟨a3, ha3, ha3eq⟩ := List.mem_map.mp hmem
          have hres := ih2 a3 ha3
          rw [ha3eq] at hres
          exact hres
        · rw [ih1 a2.1 hmem]
          exact lookupA_updA_self he0 _
      · exact ih2 a2 ha2rest

/-- The occupied entry written by allocate_block when called with English
keyword arguments only (every Spanish alias None), after alias resolution. -/
def allocEntry (id : Nat) (fn : Option String) (bi pn rn sb : Option Nat)
    (bh : Option String) (now : String) : BlockEntry :=
  { block_id := id, estado := "ocupado", archivo := pyOrStr fn none,
    parte := (match bi with | some v => some v | none => none),
    nodo_primario := pyOrNat pn none, nodo_replica := pyOrNat rn none,
    tamano_bytes := pyOrNat sb none, hash := pyOrStr bh none,
    fecha_creacion := some now }

theorem allocate_block_free_ok {st : MetaState} {id : Nat} {e : BlockEntry}
    (he : lookupA st.block_table id = some e) (hfree : e.estado = "libre")
    (fn : Option String) (bi pn rn sb : Option Nat) (bh : Option String) (now : String) :
    allocate_block st id fn bi pn rn sb bh none none none none none none now
      = Except.ok { st with
          block_table := updA st.block_table id (allocEntry id fn bi pn rn sb bh now) } := by
  simp only [allocate_block, allocEntry, he]
  have hne : ¬ (e.estado = "ocupado") := by
    rw [hfree]
    decide
  rw [if_neg hne]

theorem uploadFrom_fail (file_name : String) (file_size : Nat)
    (blocks : List (List Nat × String)) (file_hash : String) (free_blocks : List Nat)
    (okP okR : Nat → Bool) (now : String) :
    ∀ (todo : List (Nat × Nat × Nat)) (i : Nat) (done : List (Nat × Nat × Nat))
      (st : MetaState),
      (keysOf st.block_table).Nodup →
      lookupA st.file_index (some file_name) = none →
      (∀ a ∈ done, (lookupA st.block_table a.1).isSome = true) →
      (∀ b e, lookupA st.block_table b = some e → e.archivo = some file_name →
        b ∈ done.map (fun a => a.1)) →
      (∀ a ∈ todo, ∃ e, lookupA st.block_table a.1 = some e ∧ e.estado = "libre") →
      ((todo.map (fun a => a.1)).Nodup) →
      (∀ a ∈ todo, a.1 ∉ done.map (fun a => a.1)) →
      (∃ j, j < todo.length ∧ ¬(okP (i + j) = true ∧ okR (i + j) = true)) →
      ((uploadFrom file_name file_size blocks file_hash free_blocks okP okR now
          i done st todo).1 = false
        ∧ (∀ b e, lookupA (uploadFrom file_name file_size blocks file_hash free_blocks
            okP okR now i done st todo).2.block_table b = some e →
            e.archivo ≠ some file_name)
        ∧ lookupA (uploadFrom file_name file_size blocks file_hash free_blocks okP okR now
            i done st todo).2.file_index (some file_name) = none
        ∧ keysOf (uploadFrom file_name file_size blocks file_hash free_blocks okP okR now
            i done st todo).2.block_table = keysOf st.block_table) := by
  intro todo
  induction todo with
  | nil =>
    intro i done st _ _ _ _ _ _ _ hfail
    obtain ⟨j, hj, _⟩ := hfail
    simp at hj
  | cons a rest ih =>
    obtain ⟨bid, pn, rn⟩ := a
    intro i done st hnd hfi hdone harch hfree hnod hdisj hfail
    rw [List.map_cons, List.nodup_cons] at hnod
    by_cases hok : (okP i && okR i) = true
    · obtain ⟨e, he, hefree⟩ := hfree (bid, pn, rn) (List.mem_cons_self _ _)
      have halloc := allocate_block_free_ok he hefree (some file_name) (some i)
        (some pn) (some rn) (some (blocks.getD i ([], "")).1.length)
        (some (blocks.getD i ([], "")).2) now
      have hunf : uploadFrom file_name file_size blocks file_hash free_blocks okP okR now i done st ((bid, pn, rn) :: rest) = uploadFrom file_name file_size blocks file_hash free_blocks okP okR now (i + 1) (done ++ [(bid, pn, rn)]) { st with block_table := updA st.block_table bid (allocEntry bid (some file_name) (some i) (some pn) (some rn) (some (blocks.getD i ([], "")).1.length) (some (blocks.getD i ([], "")).2) now) } rest := by
        rw [uploadFrom, if_pos hok, halloc]
      have hokand := Bool.and_eq_true (okP i) (okR i) ▸ hok
      obtain ⟨ih1, ih2, ih3, ih4⟩ := ih (i + 1) (done ++ [(bid, pn, rn)]) { st with block_table := updA st.block_table bid (allocEntry bid (some file_name) (some i) (some pn) (some rn) (some (blocks.getD i ([], "")).1.length) (some (blocks.getD i ([], "")).2) now) }
        (by rw [keysOf_updA]; exact hnd)
        hfi
        (by
          intro a2 ha2
          rcases List.mem_append.mp ha2 with hleft | hright
          · by_cases heq : a2.1 = bid
            · rw [heq, lookupA_updA_self he]
              rfl
            · rw [lookupA_updA_ne _ _ heq]
              exact hdone a2 hleft
          · obtain rfl : a2 = (bid, pn, rn) := by simpa using hright
            rw [lookupA_updA_self he]
            rfl)
        (by
          intro b e2 hlk harch2
          by_cases heq : b = bid
          · subst heq
            rw [List.map_append, List.mem_append]
            right
            simp
          · rw [lookupA_updA_ne _ _ heq] at hlk
            rw [List.map_append, List.mem_append]
            left
            exact harch b e2 hlk harch2)
        (by
          intro a2 ha2
          have hne : a2.1 ≠ bid := by
            intro heq
            exact hnod.1 (heq ▸ List.mem_map.mpr ⟨a2, ha2, rfl⟩)
          rw [lookupA_updA_ne _ _ hne]
          exact hfree a2 (List.mem_cons_of_mem _ ha2))
        hnod.2
        (by
          intro a2 ha2
          have hne : a2.1 ≠ bid := by
            intro heq
            exact hnod.1 (heq ▸ List.mem_map.mpr ⟨a2, ha2, rfl⟩)
          rw [List.map_append, List.mem_append]
          push_neg
          refine ⟨hdisj a2 (List.mem_cons_of_mem _ ha2), ?_⟩
          simpa using hne)
        (by
          obtain ⟨j, hjlt, hjfail⟩ := hfail
          have hj1 : 1 ≤ j := by
            rcases Nat.eq_zero_or_pos j with rfl | hpos
            · exfalso
              apply hjfail
              simpa using hokand
            · exact hpos
          refine ⟨j - 1, ?_, ?_⟩
          · rw [List.length_cons] at hjlt
            omega
          · have heq : i + 1 + (j - 1) = i + j := by omega
            rw [heq]
            exact hjfail)
      rw [hunf]
      exact ⟨ih1, ih2, ih3, ih4.trans (keysOf_updA _ _ _)⟩
    · have hunf : uploadFrom file_name file_size blocks file_hash free_blocks okP okR now
          i done st ((bid, pn, rn) :: rest) = (false, rollback_upload st done) := by
        rw [uploadFrom, if_neg hok]
      rw [hunf]
      obtain ⟨hro1, hro2, hro3, hro4⟩ := rollback_upload_spec done st hdone
      refine ⟨rfl, ?_, ?_, hro4⟩
      · intro b e2 hlk harch2
        by_cases hb : b ∈ done.map (fun x => x.1)
        · obtain ⟨a2, ha2, ha2eq⟩ := List.mem_map.mp hb
          have hres := hro2 a2 ha2
          rw [ha2eq] at hres
          rw [hres] at hlk
          obtain rfl : e2 = freeEntry b := (Option.some.inj hlk).symm
          simp [freeEntry] at harch2
        · rw [hro1 b hb] at hlk
          exact hb (harch b e2 hlk harch2)
      · rw [hro3]
        exact hfi

/-- C1: if any block send to either its primary or its replica node fails
during upload_file, the operation reports failure, afterwards no block of
that file remains allocated in the block table (every slot allocated for
this upload has been freed again and every other slot is untouched), and the
file name is absent from the file index. -/
theorem C1_upload_failure_rollback (st : MetaState) (file_name : String) (file_size : Nat)
    (blocks : List (List Nat × String)) (file_hash : String) (active_nodes : List Nat)
    (okP okR : Nat → Bool) (now : String)
    (hnd : (keysOf st.block_table).Nodup)
    (hfi : lookupA st.file_index (some file_name) = none)
    (hnofile : ∀ p ∈ st.block_table, p.2.archivo ≠ some file_name)
    (hfail : ∃ j, j < blocks.length ∧ ¬(okP j = true ∧ okR j = true)) :
    (upload_file st file_name file_size blocks file_hash active_nodes okP okR now).1 = false
    ∧ (∀ p ∈ (upload_file st file_name file_size blocks file_hash active_nodes
        okP okR now).2.block_table, p.2.archivo ≠ some file_name)
    ∧ file_exists (upload_file st file_name file_size blocks file_hash active_nodes
        okP okR now).2 file_name = false := by
  have hfe : file_exists st file_name = false := by
    rw [file_exists, hfi]
    rfl
  have hfe2 : ¬ (file_exists st file_name = true) := by
    rw [hfe]
    decide
  rw [upload_file, if_neg hfe2]
  by_cases hact : active_nodes.length < 2
  · rw [if_pos hact]
    exact ⟨rfl, hnofile, hfe⟩
  · rw [if_neg hact]
    cases hgf : get_free_blocks st blocks.length with
    | error msg =>
      simp only [hgf]
      exact ⟨trivial, hnofile, hfe⟩
    | ok fb =>
      simp only [hgf]
      obtain ⟨gf1, gf2, gf3⟩ := get_free_blocks_ok hnd hgf
      obtain ⟨u1, u2, u3, u4⟩ := uploadFrom_fail file_name file_size blocks file_hash fb
        okP okR now (assign_round_robin fb active_nodes) 0 [] st
        hnd
        hfi
        (by
          intro a ha
          simp at ha)
        (by
          intro b e hlk harch2
          exact absurd harch2 (hnofile (b, e) (lookupA_mem hlk)))
        (by
          intro a ha
          apply gf3
          rw [← assign_round_robin_map_fst fb active_nodes]
          exact List.mem_map.mpr ⟨a, ha, rfl⟩)
        (by
          rw [assign_round_robin_map_fst]
          exact gf1)
        (by
          intro a ha
          simp)
        (by
          obtain ⟨j, hj, hfj⟩ := hfail
          refine ⟨j, ?_, ?_⟩
          · rw [assign_round_robin_length, gf2]
            exact hj
          · simpa using hfj)
      refine ⟨u1, ?_, ?_⟩
      · intro p hp
        obtain ⟨b, e⟩ := p
        apply u2 b e
        apply lookupA_of_mem ?_ hp
        rw [u4]
        exact hnd
      · rw [file_exists, u3]
        rfl

/-- C1 witness: a one-block upload into exSt whose primary send fails,
evaluated concretely. -/
theorem C1_upload_failure_rollback_witness :
    (keysOf exSt.block_table).Nodup
    ∧ (upload_file exSt "a" 1 [([9], "h")] "H2" [1, 2] (fun _ => false)
        (fun _ => true) "t").1 = false
    ∧ (∀ p ∈ (upload_file exSt "a" 1 [([9], "h")] "H2" [1, 2] (fun _ => false)
        (fun _ => true) "t").2.block_table, p.2.archivo ≠ some "a")
    ∧ file_exists (upload_file exSt "a" 1 [([9], "h")] "H2" [1, 2] (fun _ => false)
        (fun _ => true) "t").2 "a" = false := by
  refine ⟨by decide, ?_⟩
  have h := C1_upload_failure_rollback exSt "a" 1 [([9], "h")] "H2" [1, 2]
    (fun _ => false) (fun _ => true) "t" (by decide) (by decide) (by decide)
    ⟨0, by decide, by decide⟩
  exact h
